import Mathlib

/-
Verification of the lazy-vacuum engine (src/backend/commands/vacuumlazy.c).

The development below is a shallow embedding of the vacuum engine's data
model and algorithms:

* tuple identifiers (`ItemPointerData`) and their comparator
  `vac_cmp_itemptr`;
* the per-worker dead-tuple store (`lazy_record_dead_tuple`,
  `lazy_tid_reaped` with its `bsearch` over a sorted partition);
* the parallel barrier state machine (`VacWorker`,
  `lazy_count_vacstate_finished`, `lazy_check_vacstate_prepared`,
  `lazy_check_vacstate_finished`, and the mutex-protected prefix of
  `lazy_set_vacstate_and_wait_finished`);
* the page/visibility-map reconciliation block of `lazy_scan_heap`;
* the page-selection logic `lazy_scan_heap_get_nextpage` (serial and
  parallel paths), `FORCE_CHECK_PAGE` and `should_attempt_truncation`;
* truncation (`count_nondeletable_pages`, `lazy_truncate_heap`);
* the final statistics update in `lazy_vacuum_rel`.

Machine integers are modelled as `Nat` with explicit `% 2^32` where
unsigned wrap-around matters (`BlockNumber` arithmetic in
`FORCE_CHECK_PAGE`).  Concurrency is modelled by making the
mutex-protected critical sections atomic steps; properties about what a
step may do are stated about those step functions.
-/

/-- Tuple identifier: (page number, slot offset), mirroring
`ItemPointerData` (block number + offset number). -/
structure TupleId where
  block : Nat
  offset : Nat
deriving DecidableEq, Repr

instance : Inhabited TupleId := ⟨⟨0, 0⟩⟩

/-- Comparator `vac_cmp_itemptr` from vacuumlazy.c lines 2367-2392:
compares first by block number, then by offset number, returning
-1 / 0 / 1 as C `qsort`/`bsearch` comparators do. -/
def vac_cmp_itemptr (left right : TupleId) : Int :=
  if left.block < right.block then -1
  else if left.block > right.block then 1
  else if left.offset < right.offset then -1
  else if left.offset > right.offset then 1
  else 0

/-- Strict order on tuple ids induced by the comparator. -/
def tidLt (a b : TupleId) : Prop := vac_cmp_itemptr a b < 0

instance : DecidablePred (fun p : TupleId × TupleId => tidLt p.1 p.2) := by
  intro p
  unfold tidLt
  infer_instance

instance (a b : TupleId) : Decidable (tidLt a b) := by
  unfold tidLt
  infer_instance

theorem tidLt_iff (a b : TupleId) :
    tidLt a b ↔ a.block < b.block ∨ (a.block = b.block ∧ a.offset < b.offset) := by
  unfold tidLt vac_cmp_itemptr
  split_ifs with h1 h2 h3 h4 <;> simp_all <;> omega

theorem vac_cmp_itemptr_eq_zero_iff (a b : TupleId) :
    vac_cmp_itemptr a b = 0 ↔ a = b := by
  cases a with
  | mk ab ao =>
    cases b with
    | mk bb bo =>
      unfold vac_cmp_itemptr
      simp only [TupleId.mk.injEq]
      split_ifs with h1 h2 h3 h4 <;> simp_all <;> omega

theorem vac_cmp_itemptr_pos_iff (a b : TupleId) :
    0 < vac_cmp_itemptr a b ↔ tidLt b a := by
  rw [tidLt_iff]
  unfold vac_cmp_itemptr
  split_ifs with h1 h2 h3 h4 <;> constructor <;> intro h <;> simp_all <;> omega

theorem tidLt_asymm {a b : TupleId} (h : tidLt a b) : ¬ tidLt b a := by
  rw [tidLt_iff] at *
  omega

theorem tidLt_trans {a b c : TupleId} (h1 : tidLt a b) (h2 : tidLt b c) :
    tidLt a c := by
  rw [tidLt_iff] at *
  omega

theorem tidLt_irrefl (a : TupleId) : ¬ tidLt a a := by
  rw [tidLt_iff]
  omega

/- ----------------------------------------------------------------
   DeadTupleStore: lazy_record_dead_tuple / lazy_get_max_dead_tuple
   ---------------------------------------------------------------- -/

/-- Size of `ItemPointerData` in bytes. -/
def sizeofItemPointerData : Nat := 6

/-- `MaxHeapTuplesPerPage` for the default 8192-byte block size
(also the value of `LAZY_ALLOC_TUPLES`). -/
def MaxHeapTuplesPerPage : Nat := 291

/-- Capacity computation `lazy_get_max_dead_tuple` (lines 3126-3152):
for a table with indexes the memory budget divided by the tuple-id size,
clamped by INT_MAX and MaxAllocSize, limited by the previous relation
size, and at least one page worth; without indexes one page worth.
`vac_work_mem` is in kilobytes. -/
def lazy_get_max_dead_tuple (nindexes old_rel_pages vac_work_mem : Nat) : Nat :=
  if nindexes ≠ 0 then
    let m1 := vac_work_mem * 1024 / sizeofItemPointerData
    let m2 := min m1 2147483647
    let m3 := min m2 (1073741823 / sizeofItemPointerData)
    let m4 := if m3 / MaxHeapTuplesPerPage > old_rel_pages
              then old_rel_pages * MaxHeapTuplesPerPage else m3
    max m4 MaxHeapTuplesPerPage
  else MaxHeapTuplesPerPage

/-- Dead-tuple recording `lazy_record_dead_tuple` (lines 2267-2287): the
worker's partition is an array with current count `n_dt` (here the list
length); the tuple id is appended only while the count is strictly below
`max_dead_tuples`, otherwise the call is a silent no-op. -/
def lazy_record_dead_tuple (max_dead_tuples : Nat) (dt_array : List TupleId)
    (itemptr : TupleId) : List TupleId :=
  if dt_array.length < max_dead_tuples then dt_array ++ [itemptr] else dt_array

theorem lazy_record_dead_tuple_length_le (max_dead_tuples : Nat)
    (dt_array : List TupleId) (itemptr : TupleId)
    (h : dt_array.length ≤ max_dead_tuples) :
    (lazy_record_dead_tuple max_dead_tuples dt_array itemptr).length ≤ max_dead_tuples := by
  unfold lazy_record_dead_tuple
  split_ifs with hlt
  · simp
    omega
  · exact h

/-- Claim C3: every `record(tupleId)` call appends exactly when the entry
count is strictly below the fixed capacity and otherwise leaves the store
unchanged; consequently any sequence of record calls starting within
capacity stays within capacity. -/
theorem claim_C3_record_bounded (max_dead_tuples : Nat) (dt_array : List TupleId)
    (itemptr : TupleId) (tids : List TupleId) :
    (dt_array.length < max_dead_tuples →
      lazy_record_dead_tuple max_dead_tuples dt_array itemptr = dt_array ++ [itemptr]) ∧
    (max_dead_tuples ≤ dt_array.length →
      lazy_record_dead_tuple max_dead_tuples dt_array itemptr = dt_array) ∧
    (dt_array.length ≤ max_dead_tuples →
      (tids.foldl (lazy_record_dead_tuple max_dead_tuples) dt_array).length
        ≤ max_dead_tuples) := by
  refine ⟨?_, ?_, ?_⟩
  · intro h
    unfold lazy_record_dead_tuple
    simp [h]
  · intro h
    unfold lazy_record_dead_tuple
    simp [Nat.not_lt.mpr h]
  · intro h
    induction tids generalizing dt_array with
    | nil => simpa using h
    | cons t ts ih =>
        simp only [List.foldl_cons]
        exact ih _ (lazy_record_dead_tuple_length_le _ _ _ h)

theorem claim_C3_record_bounded_witness :
    (([⟨1, 1⟩, ⟨1, 2⟩] : List TupleId).length < 3 →
      lazy_record_dead_tuple 3 [⟨1, 1⟩, ⟨1, 2⟩] ⟨2, 1⟩ = [⟨1, 1⟩, ⟨1, 2⟩] ++ [⟨2, 1⟩]) ∧
    (3 ≤ ([⟨1, 1⟩, ⟨1, 2⟩] : List TupleId).length →
      lazy_record_dead_tuple 3 [⟨1, 1⟩, ⟨1, 2⟩] ⟨2, 1⟩ = [⟨1, 1⟩, ⟨1, 2⟩]) ∧
    (([⟨1, 1⟩, ⟨1, 2⟩] : List TupleId).length ≤ 3 →
      (([⟨2, 1⟩, ⟨2, 2⟩, ⟨2, 3⟩] : List TupleId).foldl
        (lazy_record_dead_tuple 3) [⟨1, 1⟩, ⟨1, 2⟩]).length ≤ 3) :=
  claim_C3_record_bounded 3 [⟨1, 1⟩, ⟨1, 2⟩] ⟨2, 1⟩ [⟨2, 1⟩, ⟨2, 2⟩, ⟨2, 3⟩]

/- ----------------------------------------------------------------
   lazy_vacuum_rel final statistics update
   ---------------------------------------------------------------- -/

/-- Final statistics selection of `lazy_vacuum_rel` (lines 443-453):
`new_rel_pages`/`new_rel_tuples` fall back to the previous catalog values
when no page was scanned while the relation is non-empty, and the
all-visible count reported by the visibility map is clamped to the
reported page count.  The tuple-count type is abstract because the code
only selects between the two values. -/
def lazy_vacuum_rel_update_stats {α : Type} (rel_pages scanned_pages old_rel_pages : Nat)
    (new_rel_tuples old_rel_tuples : α) (vm_allvisible : Nat) : Nat × α × Nat :=
  let p0 := rel_pages
  let t0 := new_rel_tuples
  let pt := if scanned_pages = 0 ∧ 0 < p0 then (old_rel_pages, old_rel_tuples) else (p0, t0)
  let av := if vm_allvisible > pt.1 then pt.1 else vm_allvisible
  (pt.1, pt.2, av)

/-- Claim C10: when the scan examined zero pages of a non-empty relation
the catalog update reuses the previous relpages/reltuples; otherwise the
fresh values are used; and the reported all-visible count never exceeds
the reported page count. -/
theorem claim_C10_stats_fallback_and_clamp {α : Type}
    (rel_pages scanned_pages old_rel_pages : Nat)
    (new_rel_tuples old_rel_tuples : α) (vm_allvisible : Nat) :
    (scanned_pages = 0 → 0 < rel_pages →
      (lazy_vacuum_rel_update_stats rel_pages scanned_pages old_rel_pages
        new_rel_tuples old_rel_tuples vm_allvisible).1 = old_rel_pages ∧
      (lazy_vacuum_rel_update_stats rel_pages scanned_pages old_rel_pages
        new_rel_tuples old_rel_tuples vm_allvisible).2.1 = old_rel_tuples) ∧
    (¬ (scanned_pages = 0 ∧ 0 < rel_pages) →
      (lazy_vacuum_rel_update_stats rel_pages scanned_pages old_rel_pages
        new_rel_tuples old_rel_tuples vm_allvisible).1 = rel_pages ∧
      (lazy_vacuum_rel_update_stats rel_pages scanned_pages old_rel_pages
        new_rel_tuples old_rel_tuples vm_allvisible).2.1 = new_rel_tuples) ∧
    (lazy_vacuum_rel_update_stats rel_pages scanned_pages old_rel_pages
        new_rel_tuples old_rel_tuples vm_allvisible).2.2 ≤
      (lazy_vacuum_rel_update_stats rel_pages scanned_pages old_rel_pages
        new_rel_tuples old_rel_tuples vm_allvisible).1 := by
  unfold lazy_vacuum_rel_update_stats
  refine ⟨?_, ?_, ?_⟩
  · intro h1 h2
    simp [h1, h2]
  · intro h
    simp [h]
  · dsimp only
    split_ifs <;> simp <;> omega

theorem claim_C10_stats_fallback_and_clamp_witness :
    ((0 : Nat) = 0 → 0 < 7 →
      (lazy_vacuum_rel_update_stats 7 0 5 (100 : Nat) 40 9).1 = 5 ∧
      (lazy_vacuum_rel_update_stats 7 0 5 (100 : Nat) 40 9).2.1 = 40) ∧
    (¬ ((0 : Nat) = 0 ∧ 0 < 7) →
      (lazy_vacuum_rel_update_stats 7 0 5 (100 : Nat) 40 9).1 = 7 ∧
      (lazy_vacuum_rel_update_stats 7 0 5 (100 : Nat) 40 9).2.1 = 100) ∧
    (lazy_vacuum_rel_update_stats 7 0 5 (100 : Nat) 40 9).2.2 ≤
      (lazy_vacuum_rel_update_stats 7 0 5 (100 : Nat) 40 9).1 :=
  claim_C10_stats_fallback_and_clamp 7 0 5 100 40 9

/- ----------------------------------------------------------------
   lazy_tid_reaped: C bsearch over each sorted per-worker partition
   ---------------------------------------------------------------- -/

/-- Binary search over the half-open index window [lo, hi) of the array,
comparing with `vac_cmp_itemptr` exactly as C `bsearch` does; returns
whether a matching element was found (the C code only tests the result
pointer against NULL). -/
def vacBsearchAux (key : TupleId) (l : List TupleId) (lo hi : Nat) : Bool :=
  if h : lo < hi then
    if vac_cmp_itemptr key (l.getD ((lo + hi) / 2) default) < 0 then
      vacBsearchAux key l lo ((lo + hi) / 2)
    else if 0 < vac_cmp_itemptr key (l.getD ((lo + hi) / 2) default) then
      vacBsearchAux key l ((lo + hi) / 2 + 1) hi
    else true
  else false
termination_by hi - lo
decreasing_by
  all_goals omega

/-- C `bsearch` over the whole partition. -/
def vacBsearch (key : TupleId) (l : List TupleId) : Bool :=
  vacBsearchAux key l 0 l.length

theorem vacBsearchAux_sound (key : TupleId) (l : List TupleId) :
    ∀ n lo hi, hi - lo ≤ n → hi ≤ l.length →
      vacBsearchAux key l lo hi = true → key ∈ l := by
  intro n
  induction n with
  | zero =>
    intro lo hi hn hle hb
    rw [vacBsearchAux.eq_def, dif_neg (by omega : ¬ lo < hi)] at hb
    exact absurd hb (by simp)
  | succ n ih =>
    intro lo hi hn hle hb
    by_cases hlt : lo < hi
    · rw [vacBsearchAux.eq_def, dif_pos hlt] at hb
      have hmidlt : (lo + hi) / 2 < hi := by omega
      have hmidge : lo ≤ (lo + hi) / 2 := by omega
      split_ifs at hb with h1 h2
      · exact ih lo ((lo + hi) / 2) (by omega) (by omega) hb
      · exact ih ((lo + hi) / 2 + 1) hi (by omega) hle hb
      · have h0 : vac_cmp_itemptr key (l.getD ((lo + hi) / 2) default) = 0 := by omega
        have hkey := (vac_cmp_itemptr_eq_zero_iff _ _).1 h0
        have hlen : (lo + hi) / 2 < l.length := by omega
        rw [hkey, List.getD_eq_get _ _ hlen]
        exact List.get_mem _ _ _
    · rw [vacBsearchAux.eq_def, dif_neg hlt] at hb
      exact absurd hb (by simp)

theorem pairwise_tidLt_getD {l : List TupleId} (hs : List.Pairwise tidLt l)
    {i j : Nat} (hij : i < j) (hj : j < l.length) :
    tidLt (l.getD i default) (l.getD j default) := by
  have hi : i < l.length := lt_trans hij hj
  rw [List.getD_eq_get _ _ hi, List.getD_eq_get _ _ hj]
  exact List.pairwise_iff_get.1 hs ⟨i, hi⟩ ⟨j, hj⟩ hij

theorem vacBsearchAux_complete (key : TupleId) (l : List TupleId)
    (hs : List.Pairwise tidLt l) :
    ∀ n lo hi, hi - lo ≤ n → hi ≤ l.length →
      ∀ j, lo ≤ j → j < hi → l.getD j default = key →
        vacBsearchAux key l lo hi = true := by
  intro n
  induction n with
  | zero =>
    intro lo hi hn _ j hj1 hj2 _
    omega
  | succ n ih =>
    intro lo hi hn hle j hj1 hj2 hkey
    have hlt : lo < hi := by omega
    rw [vacBsearchAux.eq_def, dif_pos hlt]
    have hmidlt : (lo + hi) / 2 < hi := by omega
    have hmidge : lo ≤ (lo + hi) / 2 := by omega
    have hmidlen : (lo + hi) / 2 < l.length := by omega
    by_cases hjm : j = (lo + hi) / 2
    · have h0 : vac_cmp_itemptr key (l.getD ((lo + hi) / 2) default) = 0 := by
        rw [← hjm, hkey]
        exact (vac_cmp_itemptr_eq_zero_iff _ _).2 rfl
      rw [if_neg (by omega), if_neg (by omega)]
    · by_cases hjlt : j < (lo + hi) / 2
      · have hlt1 : tidLt key (l.getD ((lo + hi) / 2) default) := by
          rw [← hkey]
          exact pairwise_tidLt_getD hs hjlt hmidlen
        have hneg1 : vac_cmp_itemptr key (l.getD ((lo + hi) / 2) default) < 0 := hlt1
        rw [if_pos hneg1]
        exact ih lo ((lo + hi) / 2) (by omega) (by omega) j hj1 hjlt hkey
      · have hjgt : (lo + hi) / 2 < j := by omega
        have hlt1 : tidLt (l.getD ((lo + hi) / 2) default) key := by
          rw [← hkey]
          exact pairwise_tidLt_getD hs hjgt (by omega)
        have hpos : 0 < vac_cmp_itemptr key (l.getD ((lo + hi) / 2) default) :=
          (vac_cmp_itemptr_pos_iff _ _).2 hlt1
        have hneg : ¬ vac_cmp_itemptr key (l.getD ((lo + hi) / 2) default) < 0 := by omega
        rw [if_neg hneg, if_pos hpos]
        exact ih ((lo + hi) / 2 + 1) hi (by omega) hle j (by omega) hj2 hkey

theorem vacBsearch_iff_mem (key : TupleId) (l : List TupleId)
    (hs : List.Pairwise tidLt l) :
    vacBsearch key l = true ↔ key ∈ l := by
  constructor
  · exact vacBsearchAux_sound key l l.length 0 l.length (by omega) (le_refl _)
  · intro hmem
    obtain ⟨⟨j, hj⟩, rfl⟩ := List.mem_iff_get.1 hmem
    exact vacBsearchAux_complete (l.get ⟨j, hj⟩) l hs l.length 0 l.length
      (by omega) (le_refl _) j (by omega) hj (List.getD_eq_get _ _ hj)

/-- Callback `lazy_tid_reaped` (lines 2331-2362): in parallel mode the
partitions of all `nworkers` workers are searched in turn with C
`bsearch` under `vac_cmp_itemptr`; in serial mode the list holds the
single partition (`num = 1`). -/
def lazy_tid_reaped (itemptr : TupleId) (dead_tuples : List (List TupleId)) : Bool :=
  dead_tuples.any (fun part => vacBsearch itemptr part)

/-- Claim C5: provided every worker partition is sorted by TupleId,
`lazy_tid_reaped` returns true exactly when the tuple id occurs in some
partition, via a sorted (binary) search of each partition in turn under
the page-then-offset order. -/
theorem claim_C5_tid_reaped_iff_mem (itemptr : TupleId)
    (dead_tuples : List (List TupleId))
    (hs : ∀ part ∈ dead_tuples, List.Pairwise tidLt part) :
    lazy_tid_reaped itemptr dead_tuples = true ↔
      ∃ part ∈ dead_tuples, itemptr ∈ part := by
  unfold lazy_tid_reaped
  rw [List.any_eq_true]
  constructor
  · rintro ⟨part, hpart, hb⟩
    exact ⟨part, hpart, (vacBsearch_iff_mem _ _ (hs part hpart)).1 hb⟩
  · rintro ⟨part, hpart, hmem⟩
    exact ⟨part, hpart, (vacBsearch_iff_mem _ _ (hs part hpart)).2 hmem⟩

theorem claim_C5_tid_reaped_iff_mem_witness :
    (∀ part ∈ ([[⟨1, 1⟩, ⟨1, 3⟩, ⟨2, 1⟩], [⟨2, 2⟩]] : List (List TupleId)),
      List.Pairwise tidLt part) ∧
    (lazy_tid_reaped ⟨1, 3⟩ [[⟨1, 1⟩, ⟨1, 3⟩, ⟨2, 1⟩], [⟨2, 2⟩]] = true ↔
      ∃ part ∈ ([[⟨1, 1⟩, ⟨1, 3⟩, ⟨2, 1⟩], [⟨2, 2⟩]] : List (List TupleId)),
        (⟨1, 3⟩ : TupleId) ∈ part) :=
  ⟨by decide, claim_C5_tid_reaped_iff_mem ⟨1, 3⟩ _ (by decide)⟩

/- ----------------------------------------------------------------
   Sortedness of a worker partition built by scan-order recording
   ---------------------------------------------------------------- -/

theorem mem_lazy_record_dead_tuple {max_dead_tuples : Nat} {arr : List TupleId}
    {tid t : TupleId} (h : t ∈ lazy_record_dead_tuple max_dead_tuples arr tid) :
    t ∈ arr ∨ t = tid := by
  unfold lazy_record_dead_tuple at h
  split_ifs at h with hlt
  · simpa using h
  · exact Or.inl h

theorem pairwise_lazy_record_dead_tuple {max_dead_tuples : Nat}
    {arr : List TupleId} {tid : TupleId} (hs : List.Pairwise tidLt arr)
    (hb : ∀ t ∈ arr, tidLt t tid) :
    List.Pairwise tidLt (lazy_record_dead_tuple max_dead_tuples arr tid) := by
  unfold lazy_record_dead_tuple
  split_ifs with hlt
  · rw [List.pairwise_append]
    exact ⟨hs, List.pairwise_singleton _ _, by simpa using hb⟩
  · exact hs

/-- One page of the scan: the dead slot offsets discovered on block
`blk` are recorded in slot-offset order, mirroring the
`FirstOffsetNumber..maxoff` loop of `lazy_scan_heap` feeding
`lazy_record_dead_tuple`. -/
def vacuum_scan_record_page (max_dead_tuples : Nat) (arr : List TupleId)
    (blk : Nat) (offs : List Nat) : List TupleId :=
  offs.foldl (fun a off => lazy_record_dead_tuple max_dead_tuples a ⟨blk, off⟩) arr

/-- Whole scan of one worker: pages are visited in the order produced by
`lazy_scan_heap_get_nextpage` and every page contributes its dead
offsets in increasing offset order. -/
def vacuum_scan_record (max_dead_tuples : Nat) (arr : List TupleId)
    (pages : List (Nat × List Nat)) : List TupleId :=
  pages.foldl (fun a p => vacuum_scan_record_page max_dead_tuples a p.1 p.2) arr

theorem vacuum_scan_record_page_sorted (max_dead_tuples : Nat) :
    ∀ (offs : List Nat) (arr : List TupleId) (blk : Nat),
      List.Pairwise (· < ·) offs →
      List.Pairwise tidLt arr →
      (∀ t ∈ arr, ∀ off ∈ offs, tidLt t ⟨blk, off⟩) →
      List.Pairwise tidLt (vacuum_scan_record_page max_dead_tuples arr blk offs) ∧
      ∀ t ∈ vacuum_scan_record_page max_dead_tuples arr blk offs,
        t ∈ arr ∨ t.block = blk := by
  intro offs
  induction offs with
  | nil =>
    intro arr blk _ hs _
    exact ⟨hs, fun t ht => Or.inl ht⟩
  | cons off offs ih =>
    intro arr blk hoffs hs hb
    rw [List.pairwise_cons] at hoffs
    have hs2 : List.Pairwise tidLt (lazy_record_dead_tuple max_dead_tuples arr ⟨blk, off⟩) :=
      pairwise_lazy_record_dead_tuple hs (fun t ht => hb t ht off (List.mem_cons_self _ _))
    have hb2 : ∀ t ∈ lazy_record_dead_tuple max_dead_tuples arr ⟨blk, off⟩,
        ∀ off2 ∈ offs, tidLt t ⟨blk, off2⟩ := by
      intro t ht off2 hoff2
      rcases mem_lazy_record_dead_tuple ht with hmem | rfl
      · exact hb t hmem off2 (List.mem_cons_of_mem _ hoff2)
      · rw [tidLt_iff]
        exact Or.inr ⟨rfl, hoffs.1 off2 hoff2⟩
    have hres := ih (lazy_record_dead_tuple max_dead_tuples arr ⟨blk, off⟩) blk
      hoffs.2 hs2 hb2
    refine ⟨hres.1, fun t ht => ?_⟩
    rcases hres.2 t ht with hmem | hblk
    · rcases mem_lazy_record_dead_tuple hmem with hmem2 | rfl
      · exact Or.inl hmem2
      · exact Or.inr rfl
    · exact Or.inr hblk

theorem vacuum_scan_record_sorted_aux (max_dead_tuples : Nat) :
    ∀ (pages : List (Nat × List Nat)) (arr : List TupleId),
      List.Pairwise (· < ·) (pages.map Prod.fst) →
      (∀ p ∈ pages, List.Pairwise (· < ·) p.2) →
      List.Pairwise tidLt arr →
      (∀ t ∈ arr, ∀ p ∈ pages, t.block < p.1) →
      List.Pairwise tidLt (vacuum_scan_record max_dead_tuples arr pages) := by
  intro pages
  induction pages with
  | nil =>
    intro arr _ _ hs _
    exact hs
  | cons page pages ih =>
    intro arr hblocks hoffs hs hb
    rw [List.map_cons, List.pairwise_cons] at hblocks
    have hpage := vacuum_scan_record_page_sorted max_dead_tuples page.2 arr page.1
      (hoffs page (List.mem_cons_self _ _)) hs
      (fun t ht off _ => by
        rw [tidLt_iff]
        exact Or.inl (hb t ht page (List.mem_cons_self _ _)))
    refine ih _ hblocks.2 (fun p hp => hoffs p (List.mem_cons_of_mem _ hp)) hpage.1 ?_
    intro t ht p hp
    have hlt : page.1 < p.1 := hblocks.1 p.1 (List.mem_map_of_mem Prod.fst hp)
    rcases hpage.2 t ht with hmem | hblk
    · exact lt_trans (hb t hmem page (List.mem_cons_self _ _)) hlt
    · omega

/-- Modelled from the spec: the shared parallel heap-scan cursor
(`heap_parallelscan_nextpage`, whose implementation is not included under
src/) hands out the relation's block numbers through a shared cursor, so
each worker receives the blocks it claims in increasing block-number
order: its claimed sequence is a sublist of `0, 1, …, nblocks-1`. -/
def parallel_worker_claimed_blocks (claims : List Nat) (nblocks : Nat) : Prop :=
  claims.Sublist (List.range nblocks)

theorem parallel_worker_claimed_blocks_pairwise {claims : List Nat} {nblocks : Nat}
    (h : parallel_worker_claimed_blocks claims nblocks) :
    List.Pairwise (· < ·) claims :=
  List.Pairwise.sublist h (List.pairwise_lt_range nblocks)

/-- Claim C4: a worker partition built only by appending in scan order —
pages in increasing block order (serial cursor or parallel shared
cursor), offsets within a page in increasing order — is strictly sorted
under the page-then-offset order and contains no duplicate tuple ids,
with no explicit sorting step, regardless of the capacity bound. -/
theorem claim_C4_scan_order_partition_sorted (max_dead_tuples : Nat)
    (pages : List (Nat × List Nat))
    (hblocks : List.Pairwise (· < ·) (pages.map Prod.fst))
    (hoffs : ∀ p ∈ pages, List.Pairwise (· < ·) p.2) :
    List.Pairwise tidLt (vacuum_scan_record max_dead_tuples [] pages) ∧
    (vacuum_scan_record max_dead_tuples [] pages).Nodup := by
  have hs := vacuum_scan_record_sorted_aux max_dead_tuples pages [] hblocks hoffs
    (List.Pairwise.nil) (by simp)
  refine ⟨hs, ?_⟩
  exact hs.imp (fun h => by
    intro heq
    exact tidLt_irrefl _ (heq ▸ h))

theorem claim_C4_scan_order_partition_sorted_witness :
    (List.Pairwise (· < ·) ((([(0, [1, 3]), (2, [2]), (5, [1, 2, 7])] :
        List (Nat × List Nat))).map Prod.fst) ∧
     ∀ p ∈ ([(0, [1, 3]), (2, [2]), (5, [1, 2, 7])] : List (Nat × List Nat)),
       List.Pairwise (· < ·) p.2) ∧
    (List.Pairwise tidLt (vacuum_scan_record 4 [] [(0, [1, 3]), (2, [2]), (5, [1, 2, 7])]) ∧
     (vacuum_scan_record 4 [] [(0, [1, 3]), (2, [2]), (5, [1, 2, 7])]).Nodup) :=
  ⟨⟨by decide, by decide⟩,
   claim_C4_scan_order_partition_sorted 4 [(0, [1, 3]), (2, [2]), (5, [1, 2, 7])]
     (by decide) (by decide)⟩

/- ----------------------------------------------------------------
   ParallelCoordinator: VacWorker states, quorum counting, barriers
   ---------------------------------------------------------------- -/

/-- Bitmask phase encodings from vacuumlazy.c lines 134-139. -/
def VACSTATE_STARTUP : Nat := 1
def VACSTATE_SCANNING : Nat := 2
def VACSTATE_VACUUM_PREPARED : Nat := 4
def VACSTATE_VACUUMING : Nat := 8
def VACSTATE_VACUUM_FINISHED : Nat := 16
def VACSTATE_COMPLETE : Nat := 32

/-- Per-worker state shared through the coordinator (struct VacWorker):
a bitmask-encoded phase plus a round counter. -/
structure VacWorker where
  state : Nat
  round : Nat
deriving DecidableEq, Repr

/-- Wellformedness: a worker phase field always holds exactly one of the
six encodings. -/
def vacWorkerWf (w : VacWorker) : Prop :=
  w.state = VACSTATE_STARTUP ∨ w.state = VACSTATE_SCANNING ∨
  w.state = VACSTATE_VACUUM_PREPARED ∨ w.state = VACSTATE_VACUUMING ∨
  w.state = VACSTATE_VACUUM_FINISHED ∨ w.state = VACSTATE_COMPLETE

instance (w : VacWorker) : Decidable (vacWorkerWf w) := by
  unfold vacWorkerWf
  infer_instance

/-- Test from `lazy_count_vacstate_finished` (lines 3096-3120): a worker
counts toward the Finished quorum at `round` when it is
`VACSTATE_VACUUM_FINISHED` at that round or already
`VACSTATE_SCANNING`/`VACSTATE_VACUUM_PREPARED` at `round + 1`. -/
def finishedCountable (w : VacWorker) (round : Nat) : Bool :=
  (w.state &&& VACSTATE_VACUUM_FINISHED != 0 && w.round == round) ||
  (w.state &&& (VACSTATE_SCANNING ||| VACSTATE_VACUUM_PREPARED) != 0 &&
    w.round == round + 1)

/-- Loop body accumulation of `lazy_count_vacstate_finished`: returns
(n_count, *n_complete). -/
def lazy_count_vacstate_finished : List VacWorker → Nat → Nat × Nat
  | [], _ => (0, 0)
  | w :: ws, round =>
    let nc := lazy_count_vacstate_finished ws round
    if finishedCountable w round then (nc.1 + 1, nc.2)
    else if w.state = VACSTATE_COMPLETE then (nc.1, nc.2 + 1)
    else nc

/-- Test from `lazy_check_vacstate_prepared` (lines 3047-3075): a worker
counts toward the Prepared quorum at `round` when its phase is among
`VACSTATE_VACUUM_PREPARED | VACSTATE_VACUUMING | VACSTATE_VACUUM_FINISHED`
at that round. -/
def preparedCountable (w : VacWorker) (round : Nat) : Bool :=
  w.state &&& (VACSTATE_VACUUM_PREPARED ||| VACSTATE_VACUUMING |||
    VACSTATE_VACUUM_FINISHED) != 0 && w.round == round

/-- Counting loop of `lazy_check_vacstate_prepared`. -/
def lazy_count_vacstate_prepared : List VacWorker → Nat → Nat × Nat
  | [], _ => (0, 0)
  | w :: ws, round =>
    let nc := lazy_count_vacstate_prepared ws round
    if preparedCountable w round then (nc.1 + 1, nc.2)
    else if w.state = VACSTATE_COMPLETE then (nc.1, nc.2 + 1)
    else nc

/-- Quorum predicate `lazy_check_vacstate_prepared`: the Prepared barrier
opens when `n_count + n_comp` equals the worker count. -/
def lazy_check_vacstate_prepared (vacworkers : List VacWorker) (round : Nat) : Bool :=
  (lazy_count_vacstate_prepared vacworkers round).1 +
    (lazy_count_vacstate_prepared vacworkers round).2 == vacworkers.length

/-- Quorum predicate `lazy_check_vacstate_finished` (lines 3077-3089). -/
def lazy_check_vacstate_finished (vacworkers : List VacWorker) (round : Nat) : Bool :=
  (lazy_count_vacstate_finished vacworkers round).1 +
    (lazy_count_vacstate_finished vacworkers round).2 == vacworkers.length

theorem lazy_count_vacstate_finished_le (ws : List VacWorker) (round : Nat) :
    (lazy_count_vacstate_finished ws round).1 +
      (lazy_count_vacstate_finished ws round).2 ≤ ws.length := by
  induction ws with
  | nil => simp [lazy_count_vacstate_finished]
  | cons w ws ih =>
    unfold lazy_count_vacstate_finished
    dsimp only
    split_ifs <;> simp only [List.length_cons] <;> omega

theorem lazy_count_vacstate_finished_full_iff (ws : List VacWorker) (round : Nat) :
    (lazy_count_vacstate_finished ws round).1 +
      (lazy_count_vacstate_finished ws round).2 = ws.length ↔
    ∀ w ∈ ws, finishedCountable w round = true ∨ w.state = VACSTATE_COMPLETE := by
  induction ws with
  | nil => simp [lazy_count_vacstate_finished]
  | cons w ws ih =>
    have hle := lazy_count_vacstate_finished_le ws round
    unfold lazy_count_vacstate_finished
    dsimp only
    split_ifs with h1 h2
    · simp only [List.length_cons, List.mem_cons]
      constructor
      · intro h t ht
        rcases ht with rfl | ht
        · exact Or.inl h1
        · exact (ih.1 (by omega)) t ht
      · intro h
        have := ih.2 (fun t ht => h t (Or.inr ht))
        omega
    · simp only [List.length_cons, List.mem_cons]
      constructor
      · intro h t ht
        rcases ht with rfl | ht
        · exact Or.inr h2
        · exact (ih.1 (by omega)) t ht
      · intro h
        have := ih.2 (fun t ht => h t (Or.inr ht))
        omega
    · simp only [List.length_cons, List.mem_cons]
      constructor
      · intro h
        omega
      · intro h
        rcases h w (Or.inl rfl) with hc | hc
        · exact absurd hc h1
        · exact absurd hc h2
  
theorem lazy_count_vacstate_prepared_le (ws : List VacWorker) (round : Nat) :
    (lazy_count_vacstate_prepared ws round).1 +
      (lazy_count_vacstate_prepared ws round).2 ≤ ws.length := by
  induction ws with
  | nil => simp [lazy_count_vacstate_prepared]
  | cons w ws ih =>
    unfold lazy_count_vacstate_prepared
    dsimp only
    split_ifs <;> simp only [List.length_cons] <;> omega

theorem lazy_count_vacstate_prepared_full_iff (ws : List VacWorker) (round : Nat) :
    (lazy_count_vacstate_prepared ws round).1 +
      (lazy_count_vacstate_prepared ws round).2 = ws.length ↔
    ∀ w ∈ ws, preparedCountable w round = true ∨ w.state = VACSTATE_COMPLETE := by
  induction ws with
  | nil => simp [lazy_count_vacstate_prepared]
  | cons w ws ih =>
    have hle := lazy_count_vacstate_prepared_le ws round
    unfold lazy_count_vacstate_prepared
    dsimp only
    split_ifs with h1 h2
    · simp only [List.length_cons, List.mem_cons]
      constructor
      · intro h t ht
        rcases ht with rfl | ht
        · exact Or.inl h1
        · exact (ih.1 (by omega)) t ht
      · intro h
        have := ih.2 (fun t ht => h t (Or.inr ht))
        omega
    · simp only [List.length_cons, List.mem_cons]
      constructor
      · intro h t ht
        rcases ht with rfl | ht
        · exact Or.inr h2
        · exact (ih.1 (by omega)) t ht
      · intro h
        have := ih.2 (fun t ht => h t (Or.inr ht))
        omega
    · simp only [List.length_cons, List.mem_cons]
      constructor
      · intro h
        omega
      · intro h
        rcases h w (Or.inl rfl) with hc | hc
        · exact absurd hc h1
        · exact absurd hc h2

theorem preparedCountable_iff_phase {w : VacWorker} (hwf : vacWorkerWf w)
    (round : Nat) :
    preparedCountable w round = true ↔
      ((w.state = VACSTATE_VACUUM_PREPARED ∨ w.state = VACSTATE_VACUUMING ∨
        w.state = VACSTATE_VACUUM_FINISHED) ∧ w.round = round) := by
  rcases hwf with h | h | h | h | h | h <;>
    cases w <;> simp_all [preparedCountable, VACSTATE_STARTUP, VACSTATE_SCANNING,
      VACSTATE_VACUUM_PREPARED, VACSTATE_VACUUMING, VACSTATE_VACUUM_FINISHED,
      VACSTATE_COMPLETE] <;>
    (intro hand; exact absurd (by decide) hand)

/-- Claim C2: a worker blocked at the Prepared barrier after moving to
ReclaimPrepared at round `r` passes the barrier exactly when every worker
is in a phase among {ReclaimPrepared, Reclaiming, ReclaimFinished} at
round `r` or is already Complete; `lazy_set_vacstate_and_wait_prepared`
loops on exactly this predicate. -/
theorem claim_C2_prepared_barrier_quorum (vacworkers : List VacWorker) (round : Nat)
    (hwf : ∀ w ∈ vacworkers, vacWorkerWf w) :
    lazy_check_vacstate_prepared vacworkers round = true ↔
      ∀ w ∈ vacworkers,
        ((w.state = VACSTATE_VACUUM_PREPARED ∨ w.state = VACSTATE_VACUUMING ∨
          w.state = VACSTATE_VACUUM_FINISHED) ∧ w.round = round) ∨
        w.state = VACSTATE_COMPLETE := by
  unfold lazy_check_vacstate_prepared
  rw [Nat.beq_eq_true_eq]
  rw [lazy_count_vacstate_prepared_full_iff]
  constructor
  · intro h w hw
    rcases h w hw with hc | hc
    · exact Or.inl ((preparedCountable_iff_phase (hwf w hw) round).1 hc)
    · exact Or.inr hc
  · intro h w hw
    rcases h w hw with hc | hc
    · exact Or.inl ((preparedCountable_iff_phase (hwf w hw) round).2 hc)
    · exact Or.inr hc

theorem claim_C2_prepared_barrier_quorum_witness :
    (∀ w ∈ ([⟨4, 1⟩, ⟨8, 1⟩, ⟨32, 0⟩] : List VacWorker), vacWorkerWf w) ∧
    (lazy_check_vacstate_prepared [⟨4, 1⟩, ⟨8, 1⟩, ⟨32, 0⟩] 1 = true ↔
      ∀ w ∈ ([⟨4, 1⟩, ⟨8, 1⟩, ⟨32, 0⟩] : List VacWorker),
        ((w.state = VACSTATE_VACUUM_PREPARED ∨ w.state = VACSTATE_VACUUMING ∨
          w.state = VACSTATE_VACUUM_FINISHED) ∧ w.round = 1) ∨
        w.state = VACSTATE_COMPLETE) :=
  ⟨by decide, claim_C2_prepared_barrier_quorum [⟨4, 1⟩, ⟨8, 1⟩, ⟨32, 0⟩] 1 (by decide)⟩

theorem finishedCountable_iff_phase {w : VacWorker} (hwf : vacWorkerWf w)
    (round : Nat) :
    finishedCountable w round = true ↔
      ((w.state = VACSTATE_VACUUM_FINISHED ∧ w.round = round) ∨
       ((w.state = VACSTATE_SCANNING ∨ w.state = VACSTATE_VACUUM_PREPARED) ∧
         w.round = round + 1)) := by
  rcases hwf with h | h | h | h | h | h <;>
    cases w <;> simp_all [finishedCountable, VACSTATE_STARTUP, VACSTATE_SCANNING,
      VACSTATE_VACUUM_PREPARED, VACSTATE_VACUUMING, VACSTATE_VACUUM_FINISHED,
      VACSTATE_COMPLETE] <;>
    first
      | (intro hand; exact absurd (by decide) hand)
      | (constructor <;> (intro hand; exact absurd (by decide) hand))

/-- Shared state of one parallel vacuum run: the worker-state array of
`LVParallelState` plus the per-worker dead-tuple partitions, and the
index count that selects the clearing mode of `lazy_clear_dead_tuple`. -/
structure LVSystem where
  workers : List VacWorker
  dead_tuples : List (List TupleId)
  nindexes : Nat
deriving DecidableEq

/-- Clearing `lazy_clear_dead_tuple` (lines 2292-2322), invoked by worker
`i`: in a parallel run with indexes the clearing worker resets every
partition; otherwise only its own. -/
def lazy_clear_dead_tuple (s : LVSystem) (i : Nat) : LVSystem :=
  if s.nindexes ≠ 0 then
    { s with dead_tuples := s.dead_tuples.map (fun _ => ([] : List TupleId)) }
  else
    { s with dead_tuples := s.dead_tuples.set i [] }

/-- Mutex-protected prefix of `lazy_set_vacstate_and_wait_finished`
(lines 2944-2957), the only place where the shared dead-tuple store is
cleared during a parallel run with indexes: worker `i` records its own
round, moves itself to `VACSTATE_VACUUM_FINISHED`, recounts the Finished
quorum, and clears the store exactly when the count of countable plus
Complete workers equals the worker count. -/
def lazy_set_vacstate_and_wait_finished_entry (s : LVSystem) (i : Nat) : LVSystem :=
  match s.workers.get? i with
  | none => s
  | some w =>
    let workers2 := s.workers.set i ⟨VACSTATE_VACUUM_FINISHED, w.round⟩
    let s2 : LVSystem := { s with workers := workers2 }
    let nc := lazy_count_vacstate_finished workers2 w.round
    if nc.1 + nc.2 = workers2.length then lazy_clear_dead_tuple s2 i else s2

/-- Claim C1: in a parallel run the shared dead-tuple partitions are
cleared only inside a Finished-barrier arrival, exactly when that
arrival makes the Finished quorum count equal the worker count; the
quorum was not yet full before the arrival (so the clearing worker is
the single last arriver), and whenever clearing happens every worker is
itself ReclaimFinished at the round, already Scanning/ReclaimPrepared at
the next round, or Complete — hence no partition is cleared before its
owner has satisfied the Finished-barrier quorum. -/
theorem claim_C1_finished_barrier_clearing (s : LVSystem) (i : Nat) (w : VacWorker)
    (hget : s.workers.get? i = some w)
    (hwf : ∀ x ∈ s.workers, vacWorkerWf x)
    (hpre : w.state = VACSTATE_VACUUMING)
    (hidx : s.nindexes ≠ 0) :
    ((lazy_set_vacstate_and_wait_finished_entry s i).dead_tuples =
      if (lazy_count_vacstate_finished
            (s.workers.set i ⟨VACSTATE_VACUUM_FINISHED, w.round⟩) w.round).1 +
         (lazy_count_vacstate_finished
            (s.workers.set i ⟨VACSTATE_VACUUM_FINISHED, w.round⟩) w.round).2 =
         (s.workers.set i ⟨VACSTATE_VACUUM_FINISHED, w.round⟩).length
      then s.dead_tuples.map (fun _ => ([] : List TupleId))
      else s.dead_tuples) ∧
    ((lazy_count_vacstate_finished s.workers w.round).1 +
       (lazy_count_vacstate_finished s.workers w.round).2 < s.workers.length) ∧
    ((lazy_count_vacstate_finished
        (s.workers.set i ⟨VACSTATE_VACUUM_FINISHED, w.round⟩) w.round).1 +
      (lazy_count_vacstate_finished
        (s.workers.set i ⟨VACSTATE_VACUUM_FINISHED, w.round⟩) w.round).2 =
      (s.workers.set i ⟨VACSTATE_VACUUM_FINISHED, w.round⟩).length →
      ∀ x ∈ s.workers.set i ⟨VACSTATE_VACUUM_FINISHED, w.round⟩,
        (x.state = VACSTATE_VACUUM_FINISHED ∧ x.round = w.round) ∨
        ((x.state = VACSTATE_SCANNING ∨ x.state = VACSTATE_VACUUM_PREPARED) ∧
          x.round = w.round + 1) ∨
        x.state = VACSTATE_COMPLETE) := by
  refine ⟨?_, ?_, ?_⟩
  · simp only [lazy_set_vacstate_and_wait_finished_entry, hget]
    split_ifs with hq
    · simp [lazy_clear_dead_tuple, hidx]
    · rfl
  · have hmem : w ∈ s.workers := List.get?_mem hget
    have hnc : finishedCountable w w.round = false := by
      have h16 : (8 : Nat) &&& 16 = 0 := by decide
      have h24 : (8 : Nat) &&& (2 ||| 4) = 0 := by decide
      cases w with
      | mk st rd =>
        simp only [VACSTATE_VACUUMING] at hpre
        subst hpre
        simp [finishedCountable, VACSTATE_VACUUM_FINISHED, VACSTATE_SCANNING,
          VACSTATE_VACUUM_PREPARED, h16, h24]
    have hncomp : w.state ≠ VACSTATE_COMPLETE := by
      rw [hpre]
      decide
    have hle := lazy_count_vacstate_finished_le s.workers w.round
    rcases Nat.lt_or_ge ((lazy_count_vacstate_finished s.workers w.round).1 +
      (lazy_count_vacstate_finished s.workers w.round).2) s.workers.length with h | h
    · exact h
    · exfalso
      have heq : (lazy_count_vacstate_finished s.workers w.round).1 +
          (lazy_count_vacstate_finished s.workers w.round).2 = s.workers.length := by
        omega
      rcases (lazy_count_vacstate_finished_full_iff s.workers w.round).1 heq
          w hmem with hc | hc
      · rw [hnc] at hc
        exact absurd hc (by simp)
      · exact hncomp hc
  · intro hq x hx
    have hwf2 : vacWorkerWf x := by
      rcases List.mem_or_eq_of_mem_set hx with hmem | rfl
      · exact hwf x hmem
      · exact Or.inr (Or.inr (Or.inr (Or.inr (Or.inl rfl))))
    rcases (lazy_count_vacstate_finished_full_iff _ w.round).1 hq x hx with hc | hc
    · rcases (finishedCountable_iff_phase hwf2 w.round).1 hc with h | h
      · exact Or.inl h
      · exact Or.inr (Or.inl h)
    · exact Or.inr (Or.inr hc)

theorem claim_C1_finished_barrier_clearing_witness :
    ((⟨[⟨16, 0⟩, ⟨8, 0⟩], [[⟨1, 1⟩], [⟨2, 2⟩]], 1⟩ : LVSystem).workers.get? 1 =
        some ⟨8, 0⟩ ∧
      (∀ x ∈ (⟨[⟨16, 0⟩, ⟨8, 0⟩], [[⟨1, 1⟩], [⟨2, 2⟩]], 1⟩ : LVSystem).workers,
        vacWorkerWf x) ∧
      (⟨8, 0⟩ : VacWorker).state = VACSTATE_VACUUMING ∧
      (⟨[⟨16, 0⟩, ⟨8, 0⟩], [[⟨1, 1⟩], [⟨2, 2⟩]], 1⟩ : LVSystem).nindexes ≠ 0) ∧
    ((lazy_set_vacstate_and_wait_finished_entry
        ⟨[⟨16, 0⟩, ⟨8, 0⟩], [[⟨1, 1⟩], [⟨2, 2⟩]], 1⟩ 1).dead_tuples =
      if (lazy_count_vacstate_finished
            ((⟨[⟨16, 0⟩, ⟨8, 0⟩], [[⟨1, 1⟩], [⟨2, 2⟩]], 1⟩ : LVSystem).workers.set 1
              ⟨VACSTATE_VACUUM_FINISHED, (⟨8, 0⟩ : VacWorker).round⟩)
            (⟨8, 0⟩ : VacWorker).round).1 +
         (lazy_count_vacstate_finished
            ((⟨[⟨16, 0⟩, ⟨8, 0⟩], [[⟨1, 1⟩], [⟨2, 2⟩]], 1⟩ : LVSystem).workers.set 1
              ⟨VACSTATE_VACUUM_FINISHED, (⟨8, 0⟩ : VacWorker).round⟩)
            (⟨8, 0⟩ : VacWorker).round).2 =
         ((⟨[⟨16, 0⟩, ⟨8, 0⟩], [[⟨1, 1⟩], [⟨2, 2⟩]], 1⟩ : LVSystem).workers.set 1
            ⟨VACSTATE_VACUUM_FINISHED, (⟨8, 0⟩ : VacWorker).round⟩).length
      then (⟨[⟨16, 0⟩, ⟨8, 0⟩], [[⟨1, 1⟩], [⟨2, 2⟩]], 1⟩ : LVSystem).dead_tuples.map
             (fun _ => ([] : List TupleId))
      else (⟨[⟨16, 0⟩, ⟨8, 0⟩], [[⟨1, 1⟩], [⟨2, 2⟩]], 1⟩ : LVSystem).dead_tuples) :=
  ⟨⟨by decide, by decide, by decide, by decide⟩,
   (claim_C1_finished_barrier_clearing ⟨[⟨16, 0⟩, ⟨8, 0⟩], [[⟨1, 1⟩], [⟨2, 2⟩]], 1⟩ 1
      ⟨8, 0⟩ (by decide) (by decide) (by decide) (by decide)).1⟩

/- ----------------------------------------------------------------
   Page / visibility-map reconciliation in lazy_scan_heap
   ---------------------------------------------------------------- -/

/-- Visibility-map flag bits. -/
def VISIBILITYMAP_ALL_VISIBLE : Nat := 1
def VISIBILITYMAP_ALL_FROZEN : Nat := 2
def VISIBILITYMAP_VALID_BITS : Nat := 3

/-- Observable effects of the reconciliation block: page-level bit
updates, visibility-map updates (`visibilitymap_set` carries the cutoff
xid argument, `none` standing for `InvalidTransactionId`), map clears,
and logged warnings (1 = map set while page bit clear, 2 = all-visible
page carrying dead tuples). -/
inductive VMAction where
  | setPageAllVisible
  | clearPageAllVisible
  | vmSet (flags : Nat) (cutoff : Option Nat)
  | vmClear (flags : Nat)
  | warning (msgId : Nat)
deriving DecidableEq, Repr

/-- Reconciliation block of `lazy_scan_heap` (lines 1274-1356), executed
for each page while the content lock is held: `all_visible`/`all_frozen`
are the freshly computed page verdicts, `avv` is the
`all_visible_according_to_vm` flag produced by the scanner,
`pageAllVisible` the page-level `PD_ALL_VISIBLE` bit,
`has_dead_tuples` whether dead tuples were recorded on the page, and
`vmStatus` the current visibility-map bits reread by
`VM_ALL_VISIBLE`/`VM_ALL_FROZEN`. -/
def lazy_scan_heap_vmreconcile (all_visible all_frozen avv pageAllVisible
    has_dead_tuples : Bool) (vmStatus : Nat) (visibility_cutoff_xid : Nat) :
    List VMAction :=
  if all_visible && !avv then
    [VMAction.setPageAllVisible,
     VMAction.vmSet
       (if all_frozen then VISIBILITYMAP_ALL_VISIBLE ||| VISIBILITYMAP_ALL_FROZEN
        else VISIBILITYMAP_ALL_VISIBLE)
       (some visibility_cutoff_xid)]
  else if avv && !pageAllVisible && (vmStatus &&& VISIBILITYMAP_ALL_VISIBLE != 0) then
    [VMAction.warning 1, VMAction.vmClear VISIBILITYMAP_VALID_BITS]
  else if pageAllVisible && has_dead_tuples then
    [VMAction.warning 2, VMAction.clearPageAllVisible,
     VMAction.vmClear VISIBILITYMAP_VALID_BITS]
  else if avv && all_visible && all_frozen &&
      (vmStatus &&& VISIBILITYMAP_ALL_FROZEN == 0) then
    [VMAction.vmSet VISIBILITYMAP_ALL_FROZEN none]
  else []

/-- Rules of claim C6, written from the spec's words: rule conditions
read the map's claim directly off the visibility-map bits, the four
rules are mutually exclusive by the else-if chain, and rule 4 passes no
cutoff (no recovery conflict). -/
def vmreconcile_rules_spec (all_visible all_frozen _avv pageAllVisible
    has_dead_tuples : Bool) (vmStatus : Nat) (visibility_cutoff_xid : Nat) :
    List VMAction :=
  if all_visible && !(vmStatus &&& VISIBILITYMAP_ALL_VISIBLE != 0) then
    [VMAction.setPageAllVisible,
     VMAction.vmSet
       (if all_frozen then VISIBILITYMAP_ALL_VISIBLE ||| VISIBILITYMAP_ALL_FROZEN
        else VISIBILITYMAP_ALL_VISIBLE)
       (some visibility_cutoff_xid)]
  else if (vmStatus &&& VISIBILITYMAP_ALL_VISIBLE != 0) && !pageAllVisible then
    [VMAction.warning 1, VMAction.vmClear VISIBILITYMAP_VALID_BITS]
  else if pageAllVisible && has_dead_tuples then
    [VMAction.warning 2, VMAction.clearPageAllVisible,
     VMAction.vmClear VISIBILITYMAP_VALID_BITS]
  else if (vmStatus &&& VISIBILITYMAP_ALL_VISIBLE != 0) && all_visible && all_frozen &&
      (vmStatus &&& VISIBILITYMAP_ALL_FROZEN == 0) then
    [VMAction.vmSet VISIBILITYMAP_ALL_FROZEN none]
  else []

/-- Claim C6: provided the scanner's `all_visible_according_to_vm` flag
agrees with the visibility map (as in any sequential execution, where the
map does not change between the skip decision and the content-locked
recheck), the reconciliation block follows exactly the four mutually
exclusive rules of the specification: set page+map bits when the page is
computed all-visible but the map does not claim it (adding the frozen
bit when all-frozen); else warn and clear the map when the map claims
all-visible but the page bit is clear; else warn and clear page and map
when an all-visible page carries dead tuples; else set only the frozen
bit with no cutoff xid when page and map agree on all-visible, the page
is all-frozen and the map lacks the frozen bit. -/
theorem claim_C6_vmreconcile_rules (all_visible all_frozen avv pageAllVisible
    has_dead_tuples : Bool) (vmStatus : Nat) (visibility_cutoff_xid : Nat)
    (hconsistent : avv = (vmStatus &&& VISIBILITYMAP_ALL_VISIBLE != 0)) :
    lazy_scan_heap_vmreconcile all_visible all_frozen avv pageAllVisible
        has_dead_tuples vmStatus visibility_cutoff_xid =
      vmreconcile_rules_spec all_visible all_frozen avv pageAllVisible
        has_dead_tuples vmStatus visibility_cutoff_xid := by
  subst hconsistent
  unfold lazy_scan_heap_vmreconcile vmreconcile_rules_spec
  cases hv : (vmStatus &&& VISIBILITYMAP_ALL_VISIBLE != 0) <;>
    cases all_visible <;> cases pageAllVisible <;> simp

theorem claim_C6_vmreconcile_rules_witness :
    ((false : Bool) = ((1 : Nat) &&& VISIBILITYMAP_ALL_VISIBLE != 0) → False) ∧
    ((true : Bool) = ((1 : Nat) &&& VISIBILITYMAP_ALL_VISIBLE != 0) ∧
      lazy_scan_heap_vmreconcile false false true false true 1 55 =
        vmreconcile_rules_spec false false true false true 1 55) :=
  ⟨by decide,
   ⟨by decide, claim_C6_vmreconcile_rules false false true false true 1 55 (by decide)⟩⟩

/- ----------------------------------------------------------------
   HeapScanner: lazy_scan_heap_get_nextpage, FORCE_CHECK_PAGE,
   should_attempt_truncation
   ---------------------------------------------------------------- -/

/-- Truncation-plausibility test `should_attempt_truncation`
(lines 1949-1962): at least one possibly freeable trailing page, the
count reaching the absolute or proportional threshold, and the
old-snapshot feature disabled. -/
def should_attempt_truncation (rel_pages nonempty_pages : Nat)
    (old_snapshot_threshold : Int) : Bool :=
  let possibly_freeable := rel_pages - nonempty_pages
  possibly_freeable > 0 &&
    (possibly_freeable ≥ 1000 || possibly_freeable ≥ rel_pages / 16) &&
    old_snapshot_threshold < 0

/-- Macro `FORCE_CHECK_PAGE(blk)` (lines 118-119): expands to
`blkno == (blk - 1) && should_attempt_truncation(vacrelstats)` where
`blkno` is the loop variable of the caller and the subtraction is
unsigned 32-bit.  Every call site in the file passes `blkno` itself as
the argument `blk`. -/
def force_check_page (blkno blk rel_pages nonempty_pages : Nat)
    (old_snapshot_threshold : Int) : Bool :=
  blkno == (blk + 4294967295) % 4294967296 &&
    should_attempt_truncation rel_pages nonempty_pages old_snapshot_threshold

/-- Advance loop for `lv_next_unskippable_block` (lines 2616-2634 and
2651-2670): move forward while the visibility map marks the block
skippable — all-frozen under an aggressive run, all-visible otherwise.
The fuel argument is the remaining block range, which the wrapper below
sets so that it never runs out before the natural loop exit. -/
def vm_advance_go (vm : Nat → Nat) (aggressive : Bool) (nblocks : Nat) :
    Nat → Nat → Nat
  | 0, b => b
  | fuel + 1, b =>
    if b < nblocks then
      if aggressive then
        if vm b &&& VISIBILITYMAP_ALL_FROZEN != 0 then
          vm_advance_go vm aggressive nblocks fuel (b + 1)
        else b
      else
        if vm b &&& VISIBILITYMAP_ALL_VISIBLE != 0 then
          vm_advance_go vm aggressive nblocks fuel (b + 1)
        else b
    else b

/-- While-loop wrapper: `fuel = nblocks - b` exhausts exactly when
`b = nblocks`, where the loop condition fails anyway. -/
def vm_advance (vm : Nat → Nat) (aggressive : Bool) (nblocks b : Nat) : Nat :=
  vm_advance_go vm aggressive nblocks (nblocks - b) b

/-- Inner `for` loop of the serial branch of
`lazy_scan_heap_get_nextpage` (lines 2643-2725).  Returns the final
`blkno`, the final `lv_next_unskippable_block`, the updated
`frozenskipped_pages` counter and the `all_visible_according_to_vm`
flag (which the C code leaves untouched on paths that do not assign
it).  The fuel argument is the remaining block range. -/
def lazy_scan_serial_loop_go (vm : Nat → Nat) (aggressive disableSkip : Bool)
    (rel_pages nonempty_pages : Nat) (old_snapshot_threshold : Int)
    (nblocks next_unskippable : Nat) (skipping : Bool) :
    Nat → Nat → Nat → Bool → Nat × Nat × Nat × Bool
  | 0, blkno, fs, avv => (blkno, next_unskippable, fs, avv)
  | fuel + 1, blkno, fs, avv =>
    if blkno < nblocks then
      if blkno = next_unskippable then
        ((blkno,
          if !disableSkip then
            vm_advance vm aggressive nblocks (next_unskippable + 1)
          else next_unskippable + 1,
          fs,
          if aggressive && (vm blkno &&& VISIBILITYMAP_ALL_VISIBLE != 0)
          then true else avv) : Nat × Nat × Nat × Bool)
      else
        if skipping && !(force_check_page blkno blkno rel_pages nonempty_pages
            old_snapshot_threshold) then
          lazy_scan_serial_loop_go vm aggressive disableSkip rel_pages
            nonempty_pages old_snapshot_threshold nblocks next_unskippable
            skipping fuel (blkno + 1)
            (if aggressive || (vm blkno &&& VISIBILITYMAP_ALL_FROZEN != 0)
             then fs + 1 else fs) avv
        else
          (blkno, next_unskippable, fs, true)
    else (blkno, next_unskippable, fs, avv)

/-- For-loop wrapper: `fuel = nblocks - blkno` exhausts exactly when
`blkno = nblocks`, where the loop condition fails anyway. -/
def lazy_scan_serial_loop (vm : Nat → Nat) (aggressive disableSkip : Bool)
    (rel_pages nonempty_pages : Nat) (old_snapshot_threshold : Int)
    (nblocks next_unskippable : Nat) (skipping : Bool) (fs : Nat) (avv : Bool)
    (blkno : Nat) : Nat × Nat × Nat × Bool :=
  lazy_scan_serial_loop_go vm aggressive disableSkip rel_pages nonempty_pages
    old_snapshot_threshold nblocks next_unskippable skipping (nblocks - blkno)
    blkno fs avv

/-- Cursor state of the serial scan (struct LVScanDescData). -/
structure LVScanDescL where
  lv_cblock : Nat
  lv_next_unskippable_block : Nat
  lv_nblocks : Nat
deriving DecidableEq, Repr

/-- Serial branch of `lazy_scan_heap_get_nextpage` (lines 2609-2731):
on the first call the lookahead is initialized and the run-length
heuristic armed when the initial skippable run reaches
`SKIP_PAGES_THRESHOLD` (32); the loop then either returns the current
block or skips it; `lv_cblock` advances past the returned block.
Returns `none` for `InvalidBlockNumber`. -/
def lazy_scan_heap_get_nextpage_serial (vm : Nat → Nat)
    (aggressive disableSkip : Bool) (rel_pages nonempty_pages : Nat)
    (old_snapshot_threshold : Int) (sc : LVScanDescL) (fs : Nat) (avv : Bool) :
    Option Nat × LVScanDescL × Nat × Bool :=
  let init := sc.lv_cblock == 0 && !disableSkip
  let n0 := if init then
              vm_advance vm aggressive sc.lv_nblocks sc.lv_next_unskippable_block
            else sc.lv_next_unskippable_block
  let skipping0 := if init then decide (n0 ≥ 32) else false
  let r := lazy_scan_serial_loop vm aggressive disableSkip rel_pages
    nonempty_pages old_snapshot_threshold sc.lv_nblocks n0 skipping0 fs avv
    sc.lv_cblock
  (if r.1 = sc.lv_nblocks then none else some r.1,
   { sc with lv_cblock := r.1 + 1, lv_next_unskippable_block := r.2.1 },
   r.2.2.1, r.2.2.2)

/-- Sequence of blocks actually visited by the serial scan, obtained by
iterating `lazy_scan_heap_get_nextpage_serial` as the scan loop of
`lazy_scan_heap` does (fuel-bounded driver). -/
def lazy_scan_serial_blocks (vm : Nat → Nat) (aggressive disableSkip : Bool)
    (rel_pages nonempty_pages : Nat) (old_snapshot_threshold : Int) :
    LVScanDescL → Nat → Bool → Nat → List Nat
  | _, _, _, 0 => []
  | sc, fs, avv, fuel + 1 =>
    match lazy_scan_heap_get_nextpage_serial vm aggressive disableSkip
        rel_pages nonempty_pages old_snapshot_threshold sc fs avv with
    | (none, _, _, _) => []
    | (some b, sc2, fs2, avv2) =>
      b :: lazy_scan_serial_blocks vm aggressive disableSkip rel_pages
        nonempty_pages old_snapshot_threshold sc2 fs2 avv2 fuel

/-- Claim C7 failing input: a 33-page relation whose visibility map marks
every page all-visible (not all-frozen), a non-aggressive serial run with
page skipping enabled, and statistics under which
`should_attempt_truncation` holds (`nonempty_pages = 0`,
`old_snapshot_threshold = -1`).  Because every call site passes `blkno`
itself to `FORCE_CHECK_PAGE`, the macro compares `blkno` with
`blkno - 1` and is identically false, so the scan skips every page —
including the final page 32, which the specification requires to be
visited while truncation is plausible: the visited-block list is empty. -/
theorem claim_C7_last_page_not_forced :
    should_attempt_truncation 33 0 (-1) = true ∧
    (∀ blkno : Nat, blkno < 4294967296 →
      force_check_page blkno blkno 33 0 (-1) = false) ∧
    lazy_scan_serial_blocks (fun _ => 1) false false 33 0 (-1) ⟨0, 0, 33⟩ 0 false 34 =
      [] := by
  refine ⟨by decide, ?_, by decide⟩
  intro blkno hb
  have hne : blkno ≠ (blkno + 4294967295) % 4294967296 := by omega
  simp [force_check_page, hne]

/-- Decision taken for one claimed block. -/
inductive PageDecision where
  | skip
  | scan
deriving DecidableEq, Repr

/-- Per-claimed-block body of the parallel branch of
`lazy_scan_heap_get_nextpage` (lines 2572-2607): given the block handed
out by the shared cursor, decide whether to skip it, by how much the
`frozenskipped_pages` counter is incremented, and the resulting
`all_visible_according_to_vm` flag (initialized to false for every
claimed block). -/
def parallel_consider_block (vm : Nat → Nat) (aggressive disableSkip : Bool)
    (rel_pages nonempty_pages : Nat) (old_snapshot_threshold : Int)
    (blkno : Nat) : PageDecision × Nat × Bool :=
  if !disableSkip && !(force_check_page blkno blkno rel_pages nonempty_pages
      old_snapshot_threshold) then
    if aggressive then
      if vm blkno &&& VISIBILITYMAP_ALL_FROZEN != 0 then
        (PageDecision.skip, 1, false)
      else if vm blkno &&& VISIBILITYMAP_ALL_VISIBLE != 0 then
        (PageDecision.scan, 0, true)
      else (PageDecision.scan, 0, false)
    else
      if vm blkno &&& VISIBILITYMAP_ALL_VISIBLE != 0 then
        (PageDecision.skip,
         if vm blkno &&& VISIBILITYMAP_ALL_FROZEN = 0 then 1 else 0,
         false)
      else (PageDecision.scan, 0, false)
  else (PageDecision.scan, 0, false)

/-- Claim C8 failing input: in the parallel per-page path of a
non-aggressive run, a claimed block whose map status is all-visible but
NOT all-frozen (status 1) is skipped and `frozenskipped_pages` is
incremented, while a block that is all-visible AND all-frozen (status 3)
is skipped without incrementing the counter — the exact inverse of the
specified behaviour (the `(vmstatus & VISIBILITYMAP_ALL_FROZEN) == 0`
test at line 2598 is inverted relative to the serial path at line 2715). -/
theorem claim_C8_parallel_frozenskip_inverted :
    parallel_consider_block (fun _ => 1) false false 10 10 (-1) 3 =
      (PageDecision.skip, 1, false) ∧
    parallel_consider_block (fun _ => 3) false false 10 10 (-1) 3 =
      (PageDecision.skip, 0, false) ∧
    ((fun _ => (1 : Nat)) 3 &&& VISIBILITYMAP_ALL_FROZEN = 0 ∧
     (fun _ => (3 : Nat)) 3 &&& VISIBILITYMAP_ALL_FROZEN ≠ 0) := by
  decide

/- ----------------------------------------------------------------
   Truncator: count_nondeletable_pages / lazy_truncate_heap
   ---------------------------------------------------------------- -/

/-- Page content abstraction for the backward verification scan: each
page is the list of its line pointers' used flags; `PageIsNew`/
`PageIsEmpty` pages carry no used line pointer.  The `hastup` test of
`count_nondeletable_pages` holds when some line pointer is used. -/
def page_has_used_item (pages : Nat → List Bool) (b : Nat) : Bool :=
  (pages b).any (fun u => u)

/-- Backward verification scan `count_nondeletable_pages`
(lines 2095-2206): starting from `blkno = rel_pages`, decrement while
`blkno > nonempty_pages`; return `blkno + 1` as soon as the examined
page has a used line pointer; if the loop falls out return
`nonempty_pages`.  (The lock-waiter early return is a concurrency-only
path and is not modelled.) -/
def count_nondeletable_pages (pages : Nat → List Bool) (nonempty_pages : Nat) :
    Nat → Nat
  | 0 => nonempty_pages
  | b + 1 =>
    if b + 1 > nonempty_pages then
      if page_has_used_item pages b then b + 1
      else count_nondeletable_pages pages nonempty_pages b
    else nonempty_pages

/-- Statistics fields of LVRelStats read and written by truncation. -/
structure TruncStats where
  rel_pages : Nat
  nonempty_pages : Nat
  pages_removed : Nat
deriving DecidableEq, Repr

/-- One round of the `lazy_truncate_heap` loop (lines 1984-2088) with
the exclusive lock granted: if the relation size observed under the lock
differs from the recorded size, truncation is abandoned untouched;
otherwise the relation is truncated to exactly the page count returned
by the backward scan, unless that count is not smaller than the current
size.  In a sequential run with no lock waiter the do-while loop
executes this body exactly once. -/
def lazy_truncate_heap_round (pages : Nat → List Bool) (observed_nblocks : Nat)
    (st : TruncStats) : TruncStats :=
  if observed_nblocks ≠ st.rel_pages then st
  else
    if st.rel_pages ≤ count_nondeletable_pages pages st.nonempty_pages st.rel_pages
    then st
    else
      { st with
        rel_pages := count_nondeletable_pages pages st.nonempty_pages st.rel_pages,
        pages_removed := st.pages_removed +
          (st.rel_pages -
            count_nondeletable_pages pages st.nonempty_pages st.rel_pages) }

theorem count_nondeletable_pages_ge (pages : Nat → List Bool)
    (nonempty_pages : Nat) :
    ∀ n, nonempty_pages ≤ count_nondeletable_pages pages nonempty_pages n := by
  intro n
  induction n with
  | zero => simp [count_nondeletable_pages]
  | succ b ih =>
    unfold count_nondeletable_pages
    split_ifs <;> omega

theorem count_nondeletable_pages_above_empty (pages : Nat → List Bool)
    (nonempty_pages : Nat) :
    ∀ n b, count_nondeletable_pages pages nonempty_pages n ≤ b → b < n →
      page_has_used_item pages b = false := by
  intro n
  induction n with
  | zero =>
    intro b _ hb
    omega
  | succ n ih =>
    intro b hle hb
    unfold count_nondeletable_pages at hle
    split_ifs at hle with h1 h2
    · omega
    · rcases Nat.lt_or_ge b n with hlt | hge
      · exact ih b hle hlt
      · have hbn : b = n := by omega
        rw [hbn]
        cases hhu : page_has_used_item pages n
        · rfl
        · exact absurd hhu (by simp [h2])
    · have := count_nondeletable_pages_ge pages nonempty_pages n
      omega

theorem count_nondeletable_pages_boundary (pages : Nat → List Bool)
    (nonempty_pages : Nat) :
    ∀ n, nonempty_pages < count_nondeletable_pages pages nonempty_pages n →
      page_has_used_item pages
        (count_nondeletable_pages pages nonempty_pages n - 1) = true := by
  intro n
  induction n with
  | zero =>
    intro h
    unfold count_nondeletable_pages at h
    omega
  | succ n ih =>
    intro h
    unfold count_nondeletable_pages at h ⊢
    split_ifs at h ⊢ with h1 h2
    · simpa using h2
    · exact ih h
    · omega

/-- Claim C9: the backward scan never returns less than
`nonempty_pages`; every page at or above the returned count has no used
line pointer, and when the result exceeds `nonempty_pages` the page just
below it does have one (the result is exactly the highest used page plus
one); truncation truncates to exactly the returned count when it is
smaller than the current size, abandons everything when the size
observed under the exclusive lock differs from the recorded size, and
never removes a page that holds a used line pointer — afterwards the
page count stays strictly above every used page index. -/
theorem claim_C9_truncation_safety (pages : Nat → List Bool)
    (observed_nblocks : Nat) (st : TruncStats)
    (hne : st.nonempty_pages ≤ st.rel_pages) :
    (observed_nblocks ≠ st.rel_pages →
      lazy_truncate_heap_round pages observed_nblocks st = st) ∧
    (st.nonempty_pages ≤
      count_nondeletable_pages pages st.nonempty_pages st.rel_pages) ∧
    (∀ b, count_nondeletable_pages pages st.nonempty_pages st.rel_pages ≤ b →
      b < st.rel_pages → page_has_used_item pages b = false) ∧
    (st.nonempty_pages <
        count_nondeletable_pages pages st.nonempty_pages st.rel_pages →
      page_has_used_item pages
        (count_nondeletable_pages pages st.nonempty_pages st.rel_pages - 1) =
        true) ∧
    (observed_nblocks = st.rel_pages →
      count_nondeletable_pages pages st.nonempty_pages st.rel_pages <
        st.rel_pages →
      (lazy_truncate_heap_round pages observed_nblocks st).rel_pages =
        count_nondeletable_pages pages st.nonempty_pages st.rel_pages) ∧
    (∀ b, b < st.rel_pages → page_has_used_item pages b = true →
      b < (lazy_truncate_heap_round pages observed_nblocks st).rel_pages) := by
  refine ⟨?_, ?_, ?_, ?_, ?_, ?_⟩
  · intro h
    unfold lazy_truncate_heap_round
    rw [if_pos h]
  · exact count_nondeletable_pages_ge pages st.nonempty_pages st.rel_pages
  · exact fun b h1 h2 =>
      count_nondeletable_pages_above_empty pages st.nonempty_pages st.rel_pages b h1 h2
  · exact count_nondeletable_pages_boundary pages st.nonempty_pages st.rel_pages
  · intro hobs hlt
    unfold lazy_truncate_heap_round
    rw [if_neg (by omega), if_neg (by omega)]
  · intro b hb hused
    have hcnp : b < count_nondeletable_pages pages st.nonempty_pages st.rel_pages := by
      rcases Nat.lt_or_ge b
          (count_nondeletable_pages pages st.nonempty_pages st.rel_pages) with h | h
      · exact h
      · exact absurd hused (by
          rw [count_nondeletable_pages_above_empty pages st.nonempty_pages
            st.rel_pages b h hb]
          simp)
    unfold lazy_truncate_heap_round
    split_ifs <;> first | omega | (dsimp only; omega)

theorem claim_C9_truncation_safety_witness :
    ((⟨5, 0, 0⟩ : TruncStats).nonempty_pages ≤ (⟨5, 0, 0⟩ : TruncStats).rel_pages ∧
     (5 : Nat) = (⟨5, 0, 0⟩ : TruncStats).rel_pages ∧
     count_nondeletable_pages (fun b => if b ≤ 1 then [true] else [])
       (⟨5, 0, 0⟩ : TruncStats).nonempty_pages (⟨5, 0, 0⟩ : TruncStats).rel_pages <
       (⟨5, 0, 0⟩ : TruncStats).rel_pages) ∧
    (lazy_truncate_heap_round (fun b => if b ≤ 1 then [true] else []) 5
        ⟨5, 0, 0⟩).rel_pages =
      count_nondeletable_pages (fun b => if b ≤ 1 then [true] else [])
        (⟨5, 0, 0⟩ : TruncStats).nonempty_pages (⟨5, 0, 0⟩ : TruncStats).rel_pages :=
  ⟨⟨by decide, by decide, by decide⟩,
   (claim_C9_truncation_safety (fun b => if b ≤ 1 then [true] else []) 5 ⟨5, 0, 0⟩
     (by decide)).2.2.2.2.1 (by decide) (by decide)⟩

theorem lazy_scan_serial_loop_go_ge (vm : Nat → Nat)
    (aggressive disableSkip : Bool) (rel_pages nonempty_pages : Nat)
    (old_snapshot_threshold : Int) (nblocks next_unskippable : Nat)
    (skipping : Bool) :
    ∀ fuel blkno fs avv, blkno ≤
      (lazy_scan_serial_loop_go vm aggressive disableSkip rel_pages
        nonempty_pages old_snapshot_threshold nblocks next_unskippable skipping
        fuel blkno fs avv).1 := by
  intro fuel
  induction fuel with
  | zero =>
    intro blkno fs avv
    simp [lazy_scan_serial_loop_go]
  | succ fuel ih =>
    intro blkno fs avv
    unfold lazy_scan_serial_loop_go
    split_ifs <;> first
      | simp
      | exact le_trans (by omega) (ih (blkno + 1) _ _)

theorem lazy_scan_serial_loop_ge (vm : Nat → Nat)
    (aggressive disableSkip : Bool) (rel_pages nonempty_pages : Nat)
    (old_snapshot_threshold : Int) (nblocks next_unskippable : Nat)
    (skipping : Bool) (fs : Nat) (avv : Bool) (blkno : Nat) :
    blkno ≤ (lazy_scan_serial_loop vm aggressive disableSkip rel_pages
      nonempty_pages old_snapshot_threshold nblocks next_unskippable skipping
      fs avv blkno).1 :=
  lazy_scan_serial_loop_go_ge vm aggressive disableSkip rel_pages
    nonempty_pages old_snapshot_threshold nblocks next_unskippable skipping
    (nblocks - blkno) blkno fs avv

/-- Serial cursor monotonicity: every block returned by the serial
`lazy_scan_heap_get_nextpage` is at least the current cursor position and
the cursor then advances strictly past it, so the sequence of blocks a
serial scan visits is strictly increasing — the serial-mode justification
of the ordering hypothesis of claim C4. -/
theorem lazy_scan_heap_get_nextpage_serial_increasing (vm : Nat → Nat)
    (aggressive disableSkip : Bool) (rel_pages nonempty_pages : Nat)
    (old_snapshot_threshold : Int) (sc : LVScanDescL) (fs : Nat) (avv : Bool)
    (b : Nat) (sc2 : LVScanDescL) (fs2 : Nat) (avv2 : Bool)
    (h : lazy_scan_heap_get_nextpage_serial vm aggressive disableSkip rel_pages
      nonempty_pages old_snapshot_threshold sc fs avv = (some b, sc2, fs2, avv2)) :
    sc.lv_cblock ≤ b ∧ sc2.lv_cblock = b + 1 := by
  cases hinit : (sc.lv_cblock == 0 && !disableSkip) with
  | false =>
    simp [lazy_scan_heap_get_nextpage_serial, hinit] at h
    obtain ⟨⟨hend, h1⟩, h2, h3⟩ := h
    have hge := lazy_scan_serial_loop_ge vm aggressive disableSkip rel_pages
      nonempty_pages old_snapshot_threshold sc.lv_nblocks
      sc.lv_next_unskippable_block false fs avv sc.lv_cblock
    refine ⟨by omega, ?_⟩
    rw [← h2]
    dsimp only
    omega
  | true =>
    simp [lazy_scan_heap_get_nextpage_serial, hinit] at h
    obtain ⟨⟨hend, h1⟩, h2, h3⟩ := h
    have hge := lazy_scan_serial_loop_ge vm aggressive disableSkip rel_pages
      nonempty_pages old_snapshot_threshold sc.lv_nblocks
      (vm_advance vm aggressive sc.lv_nblocks sc.lv_next_unskippable_block)
      (decide (32 ≤ vm_advance vm aggressive sc.lv_nblocks
        sc.lv_next_unskippable_block)) fs avv sc.lv_cblock
    refine ⟨by omega, ?_⟩
    rw [← h2]
    dsimp only
    omega
